import Mathlib

/-!
Shallow embedding of `src/mpq/__init__.py` (python-mpq), the archive-overlay
layer built on top of an external archive codec (the `storm` module, analogous
to StormLib).  Pure data is modelled directly; the codec collaborator is
modelled from the spec's section 6 contracts (an archive answers membership
queries and serves member bytes; a file handle is a byte sequence with a
position).  Python dynamic errors that the overlay layer itself can raise
(KeyError, and the NameError / AttributeError / TypeError raised by evaluating
unbound or missing attributes) are made explicit in a `PyError` type, and
fallible operations return `Except PyError`.
-/

/-- Dynamic errors raised by the overlay layer's Python code:
`keyError` for a failed name lookup, `nameError v` for evaluating an unbound
variable `v`, `attributeError a` for accessing a missing attribute `a`, and
`typeError` for an ill-typed primitive operation (such as formatting a type
object with a numeric format spec). -/
inductive PyError
  | keyError (nm : String)
  | nameError (v : String)
  | attributeError (a : String)
  | typeError
deriving DecidableEq, Repr

/-- Seek origins, as imported in the source from `os`: SEEK_SET, SEEK_CUR,
SEEK_END. -/
inductive Whence
  | SEEK_SET
  | SEEK_CUR
  | SEEK_END
deriving DecidableEq, Repr

/-- Model of the Python builtin `str.split("\r\n")` over the character list of
a string: leftmost, non-overlapping splitting on the two-character CRLF
separator, keeping empty pieces (so a trailing CRLF yields a trailing empty
entry, and splitting the empty string yields one empty entry). -/
def pySplitCRLFAux : List Char → List (List Char)
  | [] => [[]]
  | '\r' :: '\n' :: rest => [] :: pySplitCRLFAux rest
  | c :: rest =>
    match pySplitCRLFAux rest with
    | [] => [[c]]
    | h :: t => (c :: h) :: t

/-- Model of the Python builtin `str.split("\r\n")` as used by
`_regenerate_listfile` (line 39). -/
def pySplitCRLF (s : String) : List String :=
  (pySplitCRLFAux s.data).map String.mk

/-- Model of the Python builtin `str.replace(old, new)` in the
single-character case — the only case the source uses (`"\\" -> "/"` on lines
41 and 193, `"/" -> "\\"` on line 71): every occurrence of `old` is replaced by
`new`, which for one-character patterns is a per-character map. -/
def pyReplace (old new : Char) (s : String) : String :=
  String.mk (s.data.map (fun c => if c = old then new else c))

/-- Modelled from the spec: a codec-level member stream (opaque file handle) is
a byte sequence (Python 2 `str`, modelled as `List Char`) together with a
current position. -/
structure StormFile where
  data : List Char
  pos : Nat
deriving DecidableEq, Repr

/-- Modelled from the spec: `readFile(fileHandle, size) -> bytes` reads `size`
bytes from the current position and advances it (clamped at end of data;
out-of-range reads are a codec-level concern not exercised here). -/
def SFileReadFile (f : StormFile) (size : Nat) : List Char × StormFile :=
  ((f.data.drop f.pos).take size, { f with pos := min (f.pos + size) f.data.length })

/-- Modelled from the spec: `setFilePointer(fileHandle, offset, whence) ->
newPosition` repositions the stream relative to start, current position or end,
and reports the new position (clamped at 0; out-of-range offsets are a
codec-level concern). -/
def SFileSetFilePointer (f : StormFile) (offset : Int) (whence : Whence) : Nat × StormFile :=
  let base : Int :=
    match whence with
    | .SEEK_SET => 0
    | .SEEK_CUR => f.pos
    | .SEEK_END => f.data.length
  let np := (base + offset).toNat
  (np, { f with pos := np })

/-- Modelled from the spec: `getFileSize(fileHandle) -> int`, the total size of
the member. -/
def SFileGetFileSize (f : StormFile) : Nat :=
  f.data.length

/-- Modelled from the spec: an opened physical archive handle, as the overlay
layer observes it through the codec: a membership test for logical names
(`hasFile`), the member bytes served for a name under a given scope flag
(0 = unpatched, 1 = patched), and whether a patch has been layered on it. -/
structure Archive where
  hasFile : String → Bool
  content : String → Nat → List Char
  isPatched : Bool

/-- Modelled from the spec: `openMember(archiveHandle, name, scopeFlag)`
returns a fresh file handle on the member's bytes, positioned at 0. -/
def SFileOpenFileEx (a : Archive) (nm : String) (scope : Nat) : StormFile :=
  { data := a.content nm scope, pos := 0 }

/-- Embeds class `MPQExtFile` (lines 155-181): wraps one opened member stream
(`_file`) and remembers the logical name it was opened under. -/
structure MPQExtFile where
  _file : StormFile
  name : String
deriving DecidableEq, Repr

/-- Embeds `MPQExtFile.read` (lines 169-172): if `size` is omitted it is
computed as `self.size() - self.tell()` (read to end; in Python this subtraction
is on ints and is non-negative whenever the position is within the data, the
only case exercised), then the codec read is performed.  Returns the bytes and
the advanced handle. -/
def MPQExtFile.read (f : MPQExtFile) (size : Option Nat) : List Char × MPQExtFile :=
  let sz := size.getD (SFileGetFileSize f._file - (SFileSetFilePointer f._file 0 .SEEK_CUR).1)
  let r := SFileReadFile f._file sz
  (r.1, { f with _file := r.2 })

/-- Embeds `MPQExtFile.seek` (lines 174-175): delegates to the codec seek. -/
def MPQExtFile.seek (f : MPQExtFile) (offset : Int) (whence : Whence) : MPQExtFile :=
  { f with _file := (SFileSetFilePointer f._file offset whence).2 }

/-- Embeds `MPQExtFile.size` (lines 177-178). -/
def MPQExtFile.size (f : MPQExtFile) : Nat :=
  SFileGetFileSize f._file

/-- Embeds `MPQExtFile.tell` (lines 180-181): a zero-length relative seek,
returning the reported position. -/
def MPQExtFile.tell (f : MPQExtFile) : Nat :=
  (SFileSetFilePointer f._file 0 .SEEK_CUR).1

/-- Embeds class `MPQInfo` (lines 183-213): wraps exactly one `MPQExtFile`.
Note that the class defines properties `basename`, `filename`, `date_time`,
`compress_size`, `file_size` but no attribute or property called `name`. -/
structure MPQInfo where
  _file : MPQExtFile
deriving DecidableEq, Repr

/-- Embeds the `MPQInfo.filename` property (lines 191-193): the handle's name
with every backslash replaced by a forward slash. -/
def MPQInfo.filename (i : MPQInfo) : String :=
  pyReplace '\\' '/' i._file.name

/-- Argument to `MPQFile.open`, which in Python accepts either a string name or
an int index. -/
inductive PyVal
  | str (s : String)
  | int (n : Int)
deriving DecidableEq, Repr

/-- Argument to `MPQFile.read`, which accepts either a string name or an
`MPQInfo` instance. -/
inductive NameOrInfo
  | str (s : String)
  | info (i : MPQInfo)

/-- Argument to `MPQFile.getinfo`, which accepts either a string (basestring)
path or an `MPQExtFile` object. -/
inductive StrOrFile
  | str (s : String)
  | file (f : MPQExtFile)

/-- Embeds class `MPQFile` (lines 10-152): an ordered list of opened archive
handles `_archives`, the path of the most recently added archive (`name`,
absent — `none` — until the first `add_archive`), and the cached aggregate name
index `_listfile` (set to `[]` by `add_archive`; in the source a bare
`MPQFile()` with no initial archive leaves the attribute unset, a state no
claim exercises, modelled here as `[]` as well). -/
structure MPQFile where
  _archives : List Archive
  name : Option String
  _listfile : List String

/-- Embeds `MPQFile.LISTFILE` (line 15). -/
def MPQFile.LISTFILE : String := "(listfile)"

/-- Embeds `MPQFile.ATTRIBUTES` (line 14). -/
def MPQFile.ATTRIBUTES : String := "(attributes)"

/-- Embeds `MPQFile.__contains__` (lines 22-26): scans the ordered archive list
and returns True on the first archive whose `SFileHasFile` succeeds, False if
none does. -/
def MPQFile.contains (m : MPQFile) (nm : String) : Bool :=
  m._archives.any (fun mpq => mpq.hasFile nm)

/-- Embeds `MPQFile._archive_contains` (lines 28-32): returns the first archive
(in insertion order) whose `SFileHasFile` succeeds, and implicitly `None`
(here `none`) when the loop falls through. -/
def MPQFile._archive_contains (m : MPQFile) (nm : String) : Option Archive :=
  m._archives.find? (fun mpq => mpq.hasFile nm)

/-- Embeds `MPQFile._regenerate_listfile` (lines 33-41): starting from an empty
list, for each archive in order it manually opens that archive's `(listfile)`
member with scope 0, reads it fully, splits on CRLF, keeps the non-empty
entries with backslashes replaced by forward slashes, and appends them.
Returns the rebuilt index (the source assigns it to `self._listfile`). -/
def MPQFile._regenerate_listfile (m : MPQFile) : List String :=
  m._archives.foldl
    (fun acc mpq =>
      let f : MPQExtFile := { _file := SFileOpenFileEx mpq MPQFile.LISTFILE 0, name := MPQFile.LISTFILE }
      let lf := pySplitCRLF (String.mk (f.read none).1)
      acc ++ (lf.filter (fun x => x != "")).map (fun x => pyReplace '\\' '/' x))
    []

/-- Embeds `MPQFile.add_archive` (lines 43-50): the codec opens the archive at
`path` (with a priority hint and flags that the codec ignores; the resulting
handle is `a` here, since `SFileOpenArchive` is the external collaborator), the
handle is appended to the ordered list, `self.name` is set to the path, and the
cached name index is reset to empty. -/
def MPQFile.add_archive (m : MPQFile) (path : String) (a : Archive) : MPQFile :=
  { _archives := m._archives ++ [a], name := some path, _listfile := [] }

/-- Embeds `MPQFile.is_patched` (lines 80-87): the loop body evaluates
`storm.SFileIsPatchedArchive(mpq, name)`, but `name` is not bound in that scope
(no local, no enclosing, no module global of that name exists), so the first
iteration raises `NameError`; with no archives the loop body never runs and the
method returns False. -/
def MPQFile.is_patched (m : MPQFile) : Except PyError Bool :=
  match m._archives with
  | [] => .ok false
  | _ :: _ => .error (.nameError "name")

/-- Embeds `MPQFile.namelist` (lines 89-95): if the cached `_listfile` is empty
(falsy) it is regenerated; the (possibly rebuilt) cache is returned.  Modelled
as returning the list together with the updated `MPQFile` state. -/
def MPQFile.namelist (m : MPQFile) : List String × MPQFile :=
  if m._listfile = [] then
    let lf := m._regenerate_listfile
    (lf, { m with _listfile := lf })
  else
    (m._listfile, m)

/-- Embeds `MPQFile.open` (lines 97-113; `open` is a Lean keyword, hence the
guillemets).  The unused `mode="r"` parameter is omitted.  If `name` is an int,
the source executes `name = "File%08x.xxx" % (int)` — the right operand is the
built-in type object `int`, not the argument, so the `%x` conversion raises
`TypeError`.  Otherwise `scope = int(bool(patched))`, the name is resolved with
`_archive_contains`, `KeyError` is raised if that returns `None` (`if not
mpq:`; codec archive handles are truthy objects), and on success an
`MPQExtFile` is built over `SFileOpenFileEx(mpq, name, scope)`. -/
def MPQFile.«open» (m : MPQFile) (nm : PyVal) (patched : Bool := false) : Except PyError MPQExtFile :=
  match nm with
  | .int _ => .error .typeError
  | .str s =>
    let scope := if patched then 1 else 0
    match m._archive_contains s with
    | none => .error (.keyError s)
    | some mpq => .ok { _file := SFileOpenFileEx mpq s scope, name := s }

/-- Embeds `MPQFile.extract` (lines 122-131): after computing
`scope = int(bool(patched))`, the body evaluates
`mpq = self._archive_contains(name)`, but the parameter is called `member` and
no variable `name` is bound in that scope, so every call raises `NameError`
before any lookup or codec call happens. -/
def MPQFile.extract (m : MPQFile) (member : String) (path : String := ".")
    (patched : Bool := false) : Except PyError Unit :=
  .error (.nameError "name")

/-- Embeds `MPQFile.read` (lines 142-149): if `name` is an `MPQInfo` instance
the source executes `name = name.name`, but class `MPQInfo` defines no
attribute `name` (its `MPQExtFile` is stored as `_file` and the normalized name
property is called `filename`), so that branch raises `AttributeError`.  With a
string name, the member is opened with default arguments (unpatched) and read
fully. -/
def MPQFile.read (m : MPQFile) (nm : NameOrInfo) : Except PyError (List Char) :=
  match nm with
  | .info _ => .error (.attributeError "name")
  | .str s => (MPQFile.«open» m (.str s)).map (fun f => (f.read none).1)

/-- Embeds `MPQFile.getinfo` (lines 66-72): a string argument has every forward
slash replaced by a backslash and is opened via `self.open` with default
arguments (unpatched, scope 0); the resulting (or directly supplied)
`MPQExtFile` is wrapped in an `MPQInfo`. -/
def MPQFile.getinfo (m : MPQFile) (f : StrOrFile) : Except PyError MPQInfo :=
  match f with
  | .str s => (MPQFile.«open» m (.str (pyReplace '/' '\\' s))).map MPQInfo.mk
  | .file fh => .ok (MPQInfo.mk fh)

/-- Embeds `MPQFile.infolist` (lines 74-78): one `getinfo` per entry of
`namelist()`, in order; the list comprehension propagates the first error
(modelled by `mapM` over `Except`).  `namelist` may update the cache, so the
updated state is returned alongside. -/
def MPQFile.infolist (m : MPQFile) : Except PyError (List MPQInfo) × MPQFile :=
  let r := m.namelist
  (r.1.mapM (fun x => r.2.getinfo (.str x)), r.2)

/-! Concrete archives and archive sets used by the witnesses and the concrete
code-behavior theorems. -/

/-- A sample archive containing only the member "a" with one byte of
content. -/
def archA : Archive :=
  { hasFile := fun n => n == "a"
    content := fun n _ => if n == "a" then ['A'] else []
    isPatched := false }

/-- A sample archive containing members "a" and "b", with content distinct from
`archA`. -/
def archB : Archive :=
  { hasFile := fun n => n == "a" || n == "b"
    content := fun n _ => if n == "a" then ['B'] else if n == "b" then ['b'] else []
    isPatched := false }

/-- A sample archive carrying the synthetic index name "File00000003.xxx". -/
def archIdx : Archive :=
  { hasFile := fun n => n == "File00000003.xxx"
    content := fun _ _ => ['z']
    isPatched := false }

/-- A sample archive with a patch layered on it (the codec reports it as
patched). -/
def archPatched : Archive :=
  { hasFile := fun _ => false
    content := fun _ _ => []
    isPatched := true }

/-- The spec's scenario archive: it contains the 10-byte member "unit/x.txt"
(stored under its backslash form as well) and a `(listfile)` member whose bytes
are "unit\x.txt" followed by CRLF. -/
def archScenario : Archive :=
  { hasFile := fun n => n == "unit/x.txt" || n == "unit\\x.txt" || n == "(listfile)"
    content := fun n _ =>
      if n == "(listfile)" then "unit\\x.txt\r\n".data
      else if n == "unit/x.txt" || n == "unit\\x.txt" then "0123456789".data
      else []
    isPatched := false }

/-- Archive set holding just `archScenario`, with an empty (to-be-rebuilt)
name-index cache, as left by `add_archive`. -/
def mScenario : MPQFile :=
  { _archives := [archScenario], name := some "scenario.mpq", _listfile := [] }

/-- Archive set holding `archA` then `archB`, in that insertion order. -/
def mAB : MPQFile :=
  { _archives := [archA, archB], name := some "b.mpq", _listfile := [] }

/-- A concrete open member handle: three bytes, position 0. -/
def fABC : MPQExtFile :=
  { _file := { data := ['a', 'b', 'c'], pos := 0 }, name := "m" }

/-! Helper lemmas shared by the claim theorems. -/

/-- A first-match scan over an appended list returns the marked element when
everything before it fails the predicate and it succeeds. -/
theorem find?_append_first (p : Archive → Bool) (pre rest : List Archive) (A1 : Archive)
    (hpre : ∀ a ∈ pre, p a = false) (h1 : p A1 = true) :
    (pre ++ A1 :: rest).find? p = some A1 := by
  induction pre with
  | nil => simp [List.find?_cons, h1]
  | cons a t ih =>
    have ha : p a = false := hpre a (by simp)
    simp only [List.cons_append, List.find?_cons, ha, cond_false]
    exact ih (fun x hx => hpre x (by simp [hx]))

/-- `List.any` agrees with the success of `List.find?`. -/
theorem any_eq_isSome_find? (p : Archive → Bool) (l : List Archive) :
    l.any p = (l.find? p).isSome := by
  induction l with
  | nil => rfl
  | cons a t ih =>
    cases h : p a <;> simp [List.any_cons, List.find?_cons, h, ih]

/-- Folding list append from an initial accumulator is a join of mapped
pieces. -/
theorem foldl_append_eq_join (f : Archive → List String) (l : List Archive)
    (init : List String) :
    l.foldl (fun acc a => acc ++ f a) init = init ++ (l.map f).flatten := by
  induction l generalizing init with
  | nil => simp
  | cons a t ih => simp [List.foldl_cons, ih, List.append_assoc]

/-- `tell` reports the handle's current position. -/
theorem MPQExtFile.tell_eq_pos (f : MPQExtFile) : f.tell = f._file.pos := by
  simp [MPQExtFile.tell, SFileSetFilePointer]

/-- An unsized read on a freshly opened member handle returns the member's full
byte content. -/
theorem read_fresh_all (a : Archive) (nm nm2 : String) (scope : Nat) :
    ((MPQExtFile.mk (SFileOpenFileEx a nm scope) nm2).read none).1 = a.content nm scope := by
  simp [MPQExtFile.read, SFileOpenFileEx, SFileReadFile, SFileGetFileSize,
    SFileSetFilePointer]

/-- Rebuilding the name index depends only on the archive list, not on the
cache field being replaced. -/
theorem regenerate_ignores_cache (m : MPQFile) (l : List String) :
    MPQFile._regenerate_listfile { m with _listfile := l } = m._regenerate_listfile := rfl

/-- Claim C1: first-wins resolution law — whenever the ordered archive list is
`pre ++ A1 :: mid ++ A2 :: post` with `A1` the first archive containing the
logical name `N` (every archive added before it lacks `N`) and `A2` a later
archive that also contains `N`, `_archive_contains N` resolves to `A1`, and
`open N` returns a file handle bound to `A1` (opened from `A1` with scope 0),
shadowing `A2`. -/
theorem C1_first_wins_resolution (pre mid post : List Archive) (A1 A2 : Archive)
    (N : String) (nmo : Option String) (lf : List String)
    (h1 : A1.hasFile N = true) (h2 : A2.hasFile N = true)
    (hpre : ∀ a ∈ pre, a.hasFile N = false) :
    (MPQFile.mk (pre ++ A1 :: (mid ++ A2 :: post)) nmo lf)._archive_contains N = some A1 ∧
    MPQFile.«open» (MPQFile.mk (pre ++ A1 :: (mid ++ A2 :: post)) nmo lf) (.str N) false =
      .ok (MPQExtFile.mk (SFileOpenFileEx A1 N 0) N) := by
  have hfind :
      (MPQFile.mk (pre ++ A1 :: (mid ++ A2 :: post)) nmo lf)._archive_contains N = some A1 :=
    find?_append_first _ pre _ A1 hpre h1
  exact ⟨hfind, by simp [MPQFile.«open», hfind]⟩

/-- Witness for C1 at a concrete two-archive set: `archA` (added first) and
`archB` (added later) both contain "a", and resolution and open both bind to
`archA`. -/
theorem C1_first_wins_resolution_witness :
    archA.hasFile "a" = true ∧ archB.hasFile "a" = true ∧
    mAB._archive_contains "a" = some archA ∧
    MPQFile.«open» mAB (.str "a") false = .ok (MPQExtFile.mk (SFileOpenFileEx archA "a" 0) "a") := by
  have h := C1_first_wins_resolution [] [] [] archA archB "a" (some "b.mpq") []
    rfl rfl (by intro a ha; cases ha)
  exact ⟨rfl, rfl, h.1, h.2⟩

/-- Claim C3: the membership test agrees with resolution — `contains N` is true
exactly when `_archive_contains N` does not report not-found, both being the
same first-match scan over the ordered archive list. -/
theorem C3_contains_iff_resolve (m : MPQFile) (N : String) :
    m.contains N = (m._archive_contains N).isSome :=
  any_eq_isSome_find? _ m._archives

/-- Claim C9: cache stability and invalidation on add — a second `namelist`
call with no intervening `add_archive` returns the identical sequence, and
`add_archive` appends the newly opened handle to the ordered list while
resetting the cached name index to empty. -/
theorem C9_cache_stability_and_invalidation (m : MPQFile) (path : String) (a : Archive) :
    ((m.namelist).2.namelist).1 = (m.namelist).1 ∧
    (m.add_archive path a)._archives = m._archives ++ [a] ∧
    (m.add_archive path a)._listfile = [] := by
  refine ⟨?_, rfl, rfl⟩
  by_cases h : m._listfile = []
  · by_cases h2 : m._regenerate_listfile = []
    · simp [MPQFile.namelist, h, h2, regenerate_ignores_cache]
    · simp [MPQFile.namelist, h, h2]
  · simp [MPQFile.namelist, h]

/-- Claim C4 (code behavior): on a concrete two-archive set, the missing name
"nofile" is not contained and `open` raises KeyError as the claim says; but
`extract` raises NameError — its body looks up the unbound variable `name`
instead of the parameter `member` — both for the missing name and for the
present member "a", so it never raises KeyError and never delegates to the
codec. -/
theorem C4_extract_raises_name_error :
    MPQFile.contains mAB "nofile" = false ∧
    MPQFile.«open» mAB (.str "nofile") false = .error (.keyError "nofile") ∧
    MPQFile.extract mAB "nofile" "." false = .error (.nameError "name") ∧
    MPQFile.extract mAB "a" "." false = .error (.nameError "name") :=
  ⟨rfl, rfl, rfl, rfl⟩

/-- Claim C5 (code behavior): on a one-archive set whose archive the codec
reports as patched, `is_patched` does not return true — it raises NameError,
because the loop body passes the unbound variable `name` to the codec query. -/
theorem C5_is_patched_raises_name_error :
    MPQFile.is_patched { _archives := [archPatched], name := some "p.mpq", _listfile := [] } =
      .error (.nameError "name") :=
  rfl

/-- Claim C6 (code behavior): `read` given a Metadata View raises
AttributeError — `MPQInfo` has no attribute `name` (the normalized name is the
`filename` property) — while the string path works as described, opening
unpatched and returning the full content bytes. -/
theorem C6_read_info_attribute_error :
    MPQFile.read mAB (.info (MPQInfo.mk (MPQExtFile.mk (SFileOpenFileEx archA "a" 0) "a"))) =
      .error (.attributeError "name") ∧
    MPQFile.read mAB (.str "a") = .ok ['A'] :=
  ⟨rfl, rfl⟩

/-- Claim C7 (code behavior): on a one-archive set that does contain the
synthetic name "File00000003.xxx", `open 3` does not resolve it — the source
formats the built-in type object (`"File%08x.xxx" % (int)`), which raises
TypeError before any resolution. -/
theorem C7_open_int_type_error :
    MPQFile.contains (MPQFile.mk [archIdx] (some "i.mpq") []) "File00000003.xxx" = true ∧
    MPQFile.«open» (MPQFile.mk [archIdx] (some "i.mpq") []) (.int 3) false = .error .typeError :=
  ⟨rfl, rfl⟩

/-- An unsized read returns the bytes from the current position up to the end,
the requested length being size minus tell. -/
theorem read_none_bytes (f : MPQExtFile) :
    (f.read none).1 = (f._file.data.drop f._file.pos).take (f._file.data.length - f._file.pos) := by
  simp [MPQExtFile.read, SFileReadFile, SFileGetFileSize, SFileSetFilePointer]

/-- An unsized read leaves the underlying byte content unchanged. -/
theorem read_none_data (f : MPQExtFile) :
    ((f.read none).2)._file.data = f._file.data := by
  simp [MPQExtFile.read, SFileReadFile, SFileGetFileSize, SFileSetFilePointer]

/-- Position after an unsized read. -/
theorem read_none_pos (f : MPQExtFile) :
    ((f.read none).2)._file.pos =
      min (f._file.pos + (f._file.data.length - f._file.pos)) f._file.data.length := by
  simp [MPQExtFile.read, SFileReadFile, SFileGetFileSize, SFileSetFilePointer]

/-- Claim C8: read-to-end round trip — for a File Handle whose position is
within its data, `read` with no size argument returns exactly
`size() - tell()` bytes, `tell()` after the full read equals the total size,
and a further no-argument read returns no bytes (so repeated no-argument reads
from position 0 return exactly the total size in bytes). -/
theorem C8_read_to_end_round_trip (f : MPQExtFile)
    (h : f._file.pos ≤ f._file.data.length) :
    ((f.read none).1).length = f.size - f.tell ∧
    ((f.read none).2).tell = f.size ∧
    (((f.read none).2).read none).1 = [] := by
  have hp : ((f.read none).2)._file.pos = f._file.data.length := by
    rw [read_none_pos]; omega
  refine ⟨?_, ?_, ?_⟩
  · rw [read_none_bytes]
    simp [MPQExtFile.size, MPQExtFile.tell_eq_pos, SFileGetFileSize,
      List.length_take, List.length_drop]
  · rw [MPQExtFile.tell_eq_pos, hp]
    simp [MPQExtFile.size, SFileGetFileSize]
  · rw [read_none_bytes, read_none_data, hp]
    simp

/-- Witness for C8 on a concrete three-byte handle at position 0. -/
theorem C8_read_to_end_round_trip_witness :
    fABC._file.pos ≤ fABC._file.data.length ∧
    (((fABC.read none).1).length = fABC.size - fABC.tell ∧
     ((fABC.read none).2).tell = fABC.size ∧
     (((fABC.read none).2).read none).1 = []) :=
  ⟨by decide, C8_read_to_end_round_trip fABC (by decide)⟩

/-- Claim C2: `namelist` returns the cached aggregate index when the cache is
non-empty; when the cache is empty it rebuilds it as, for each archive in
insertion order, the `(listfile)` member's full contents split on CRLF, with
empty entries discarded and backslashes replaced by forward slashes, all
concatenated in archive order (a flatten of per-archive lists, so duplicates
across archives are kept). -/
theorem C2_namelist_rebuild (m : MPQFile) :
    (m._listfile ≠ [] → (m.namelist).1 = m._listfile) ∧
    (m._listfile = [] →
      (m.namelist).1 =
        (m._archives.map (fun a =>
          ((pySplitCRLF (String.mk (a.content MPQFile.LISTFILE 0))).filter
              (fun x => x != "")).map (fun x => pyReplace '\\' '/' x))).flatten) := by
  constructor
  · intro h; simp [MPQFile.namelist, h]
  · intro h
    have hl : (m.namelist).1 = m._regenerate_listfile := by simp [MPQFile.namelist, h]
    rw [hl]
    simp only [MPQFile._regenerate_listfile]
    rw [foldl_append_eq_join (fun mpq =>
      ((pySplitCRLF (String.mk
          ((MPQExtFile.mk (SFileOpenFileEx mpq MPQFile.LISTFILE 0) MPQFile.LISTFILE).read
            none).1)).filter (fun x => x != "")).map (fun x => pyReplace '\\' '/' x))]
    simp [read_fresh_all]

/-- Witness for C2 on the spec's scenario: one archive whose listing member
holds the bytes "unit\x.txt" CRLF; enumeration yields exactly ["unit/x.txt"]
and reading that member returns its 10 content bytes. -/
theorem C2_namelist_rebuild_witness :
    mScenario._listfile = [] ∧
    (mScenario.namelist).1 = ["unit/x.txt"] ∧
    MPQFile.read mScenario (.str "unit/x.txt") = .ok ("0123456789".data) := by
  refine ⟨rfl, ?_, rfl⟩
  have h := (C2_namelist_rebuild mScenario).2 rfl
  rw [h]
  rfl

/-- Claim C10: when `getinfo` is given a string name it replaces every forward
slash by a backslash before resolving, opens the resolved member with scope 0
(unpatched), and wraps the handle; and `infolist` applies exactly this
`getinfo` to every name reported by `namelist` (which stores forward-slash
forms). -/
theorem C10_getinfo_backslash_unpatched (m : MPQFile) (s : String) (a : Archive)
    (h : m._archive_contains (pyReplace '/' '\\' s) = some a) :
    m.getinfo (.str s) =
      .ok (MPQInfo.mk (MPQExtFile.mk (SFileOpenFileEx a (pyReplace '/' '\\' s) 0)
        (pyReplace '/' '\\' s))) ∧
    (m.infolist).1 = ((m.namelist).1).mapM (fun x => (m.namelist).2.getinfo (.str x)) := by
  refine ⟨?_, rfl⟩
  simp [MPQFile.getinfo, MPQFile.«open», h, Except.map]

/-- Witness for C10 on the scenario archive: "unit/x.txt" is converted to its
backslash form "unit\x.txt", which resolves to the archive and is opened with
scope 0. -/
theorem C10_getinfo_backslash_unpatched_witness :
    mScenario._archive_contains (pyReplace '/' '\\' "unit/x.txt") = some archScenario ∧
    (mScenario.getinfo (.str "unit/x.txt") =
      .ok (MPQInfo.mk (MPQExtFile.mk
        (SFileOpenFileEx archScenario (pyReplace '/' '\\' "unit/x.txt") 0)
        (pyReplace '/' '\\' "unit/x.txt"))) ∧
     (mScenario.infolist).1 =
       ((mScenario.namelist).1).mapM (fun x => (mScenario.namelist).2.getinfo (.str x))) :=
  ⟨rfl, C10_getinfo_backslash_unpatched mScenario "unit/x.txt" archScenario rfl⟩
